import Mathlib

set_option maxRecDepth 200000

/-!
Verification of the data-hiding and secure-framing subsystem of the Obscura
repository (src/js/stego.js, src/js/crypto.js, src/js/watermark.js).

Strings are modelled as lists of UTF-16 code units (`List Nat`, each < 2^16),
bitstrings (JS strings of '0'/'1' characters) as `List Bool`, and byte buffers
as `List Nat` with entries < 256.  The platform collaborators (WebCrypto
AES-GCM/PBKDF2, TextEncoder/TextDecoder, JSON) are abstracted as a
`CryptoProvider` record and explicit function parameters, as the spec treats
them (an opaque CryptoProvider capability, not reimplemented).  `window.btoa`
and `window.atob` are modelled concretely per the standard base64 algorithm.
-/

/-- Value of a JS binary string of '0'/'1' characters, as computed by
`parseInt(s, 2)`: most significant bit first.  (`parseInt('', 2)` is `NaN`;
callers that can reach the empty case handle it explicitly.) -/
def bitsToNat (bs : List Bool) : Nat :=
  bs.foldl (fun a b => 2 * a + (if b then 1 else 0)) 0

/-- Fuel-driven core of `n.toString(2)`: binary digits of `n`, most significant
first, empty for `n = 0`.  The fuel (first argument) only needs to be at least
`n`; `natToBinCore_adequate` below shows the result is fuel-independent. -/
def natToBinCore : Nat → Nat → List Bool
  | 0, _ => []
  | fuel + 1, n => if n = 0 then [] else natToBinCore fuel (n / 2) ++ [n % 2 == 1]

/-- Minimal binary representation of `n` (most significant first, `[]` for 0). -/
def natBits (n : Nat) : List Bool := natToBinCore n n

/-- JS `n.toString(2)`: minimal binary representation, `"0"` for zero. -/
def natToBin (n : Nat) : List Bool := if n = 0 then [false] else natBits n

/-- JS `String.prototype.padStart(w, '0')`: left-pad with zeros up to width `w`;
a string already at least `w` long is returned unchanged (never truncated). -/
def padStart (w : Nat) (s : List Bool) : List Bool := List.replicate (w - s.length) false ++ s

/-- Shared `stringToBinary`, defined identically in `StegoEngine` and
`WatermarkEngine`: each character's `charCodeAt` value rendered with
`toString(2).padStart(16, '0')`, concatenated in order. -/
def stringToBinary : List Nat → List Bool
  | [] => []
  | c :: rest => padStart 16 (natToBin c) ++ stringToBinary rest

/-- JS `(byte & 0xFE) | bit`: clear the least significant bit of a channel
byte and set it to the payload bit.  On the `Uint8ClampedArray` channel values
(< 256) that the engines operate on, this equals `2 * (x / 2) + bit`. -/
def setLSB (x : Nat) (b : Bool) : Nat := 2 * (x / 2) + (if b then 1 else 0)

/-- The embedding loop shared by `StegoEngine.encode` and
`WatermarkEngine.addInvisibleWatermark` (without the latter's alpha forcing):
walk the RGBA byte array four bytes at a time, overwrite the LSBs of the
R, G, B channels with successive payload bits, skip the alpha channel, and
leave everything beyond the payload untouched. -/
def embedPixels : List Nat → List Bool → List Nat
  | r :: g :: b :: a :: rest, p0 :: p1 :: p2 :: ps =>
      setLSB r p0 :: setLSB g p1 :: setLSB b p2 :: a :: embedPixels rest ps
  | r :: g :: b :: rest, [p0, p1] => setLSB r p0 :: setLSB g p1 :: b :: rest
  | r :: rest, [p0] => setLSB r p0 :: rest
  | d, _ => d

/-- The extraction traversal shared by `StegoEngine.decode` and
`WatermarkEngine.extractInvisibleWatermark`: the LSBs (`byte & 1`) of the
R, G, B channels of each pixel of the RGBA byte array, in buffer order. -/
def lsbBits : List Nat → List Bool
  | r :: g :: b :: _ :: rest => (r % 2 == 1) :: (g % 2 == 1) :: (b % 2 == 1) :: lsbBits rest
  | _ => []

section BitLemmas

theorem natToBinCore_adequate : ∀ (f g n : Nat), n ≤ f → n ≤ g →
    natToBinCore f n = natToBinCore g n := by
  intro f
  induction f with
  | zero =>
    intro g n hf _
    have hn : n = 0 := by omega
    subst hn
    cases g <;> simp [natToBinCore]
  | succ f ih =>
    intro g n hf hg
    by_cases h0 : n = 0
    · subst h0; cases g <;> simp [natToBinCore]
    · cases g with
      | zero => omega
      | succ g =>
        simp only [natToBinCore, if_neg h0]
        rw [ih g (n / 2) (by omega) (by omega)]

theorem natBits_succ (n : Nat) (h : n ≠ 0) :
    natBits n = natBits (n / 2) ++ [n % 2 == 1] := by
  unfold natBits
  cases n with
  | zero => exact absurd rfl h
  | succ m =>
    simp only [natToBinCore, if_neg h]
    rw [natToBinCore_adequate m ((m + 1) / 2) ((m + 1) / 2) (by omega) (by omega)]

theorem bitsToNat_append_bit (bs : List Bool) (b : Bool) :
    bitsToNat (bs ++ [b]) = 2 * bitsToNat bs + (if b then 1 else 0) := by
  simp [bitsToNat, List.foldl_append]

/-- Reading back the minimal binary digits: `parseInt(n.toString(2), 2) = n`. -/
theorem bitsToNat_natBits (n : Nat) : bitsToNat (natBits n) = n := by
  induction n using Nat.strong_induction_on with
  | _ n ih =>
    by_cases h0 : n = 0
    · subst h0; rfl
    · rw [natBits_succ n h0, bitsToNat_append_bit, ih (n / 2) (by omega)]
      rcases Nat.mod_two_eq_zero_or_one n with h2 | h2 <;> simp [h2] <;> omega

theorem natBits_length_le (k : Nat) : ∀ n, n < 2 ^ k → (natBits n).length ≤ k := by
  induction k with
  | zero =>
    intro n hn
    have hn0 : n = 0 := by omega
    subst hn0
    simp [natBits, natToBinCore]
  | succ k ih =>
    intro n hn
    by_cases h0 : n = 0
    · subst h0; simp [natBits, natToBinCore]
    · rw [natBits_succ n h0]
      have := ih (n / 2) (by omega)
      simp only [List.length_append, List.length_cons, List.length_nil]
      omega

theorem natBits_two_pow (k : Nat) : natBits (2 ^ k) = true :: List.replicate k false := by
  induction k with
  | zero => rfl
  | succ k ih =>
    rw [natBits_succ (2 ^ (k + 1)) (by positivity)]
    have h2 : 2 ^ (k + 1) / 2 = 2 ^ k := by
      rw [pow_succ]; omega
    have h3 : 2 ^ (k + 1) % 2 = 0 := by
      rw [pow_succ]; omega
    rw [h2, h3, ih]
    simp [List.replicate_succ']

theorem natToBin_length_le (n : Nat) (h : n < 2 ^ 32) : (natToBin n).length ≤ 32 := by
  unfold natToBin
  split_ifs with h0
  · simp
  · exact natBits_length_le 32 n h

/-- For a header value that fits, `toString(2).padStart(32, '0')` is exactly
32 characters. -/
theorem padStart32_length (n : Nat) (h : n < 2 ^ 32) :
    (padStart 32 (natToBin n)).length = 32 := by
  have := natToBin_length_le n h
  simp only [padStart, List.length_append, List.length_replicate]
  omega

/-- Leading zero characters do not change the `parseInt(_, 2)` value. -/
theorem bitsToNat_replicate_false (k : Nat) (bs : List Bool) :
    bitsToNat (List.replicate k false ++ bs) = bitsToNat bs := by
  induction k with
  | zero => simp
  | succ k ih =>
    simp only [List.replicate_succ, List.cons_append, bitsToNat, List.foldl_cons] at *
    simpa using ih

/-- Reading back the framed length header: `parseInt` of the padded 32-bit
header recovers the value whenever it fits in 32 bits. -/
theorem bitsToNat_padStart_natToBin (n : Nat) :
    bitsToNat (padStart 32 (natToBin n)) = n := by
  unfold padStart natToBin
  split_ifs with h0
  · subst h0
    rw [bitsToNat_replicate_false]
    rfl
  · rw [bitsToNat_replicate_false]
    exact bitsToNat_natBits n

theorem stringToBinary_length (m : List Nat) (h : ∀ c ∈ m, c < 2 ^ 16) :
    (stringToBinary m).length = 16 * m.length := by
  induction m with
  | nil => rfl
  | cons c rest ih =>
    have hc : c < 2 ^ 16 := h c (by simp)
    have hlen : (padStart 16 (natToBin c)).length = 16 := by
      have : (natToBin c).length ≤ 16 := by
        unfold natToBin
        split_ifs with h0
        · simp
        · exact natBits_length_le 16 c hc
      simp only [padStart, List.length_append, List.length_replicate]
      omega
    simp only [stringToBinary, List.length_append, hlen, List.length_cons,
      ih (fun x hx => h x (by simp [hx]))]
    ring

theorem setLSB_lsb (x : Nat) (b : Bool) : ((setLSB x b) % 2 == 1) = b := by
  cases b <;> (simp [setLSB]; try omega)

theorem embedPixels_nil (d : List Nat) : embedPixels d [] = d := by
  rcases d with _ | ⟨r, _ | ⟨g, _ | ⟨b, _ | ⟨a, rest⟩⟩⟩⟩ <;> rfl

/-- Core agreement between the embedding and the extraction traversal: after
embedding a payload that fits, the extracted LSB stream starts with exactly
the payload bits, followed by the untouched remainder of the cover's LSBs.
This is the bit-for-bit traversal-order invariant. -/
theorem lsbBits_embedPixels (d : List Nat) (p : List Bool)
    (h : p.length ≤ (lsbBits d).length) :
    lsbBits (embedPixels d p) = p ++ (lsbBits d).drop p.length := by
  induction d, p using embedPixels.induct with
  | case1 r g b a rest p0 p1 p2 ps ih =>
    simp only [lsbBits, List.length_cons] at h
    simp only [embedPixels, lsbBits, setLSB_lsb, List.length_cons, List.drop_succ_cons,
      List.cons_append]
    rw [ih (by omega)]
  | case2 r g b rest p0 p1 =>
    rcases rest with _ | ⟨a, t⟩
    · simp [lsbBits] at h
    · simp [embedPixels, lsbBits, setLSB_lsb]
  | case3 r rest p0 =>
    rcases rest with _ | ⟨g, _ | ⟨b, _ | ⟨a, t⟩⟩⟩
    · simp [lsbBits] at h
    · simp [lsbBits] at h
    · simp [lsbBits] at h
    · simp [embedPixels, lsbBits, setLSB_lsb]
  | case4 d p h1 h2 h3 =>
    rcases p with _ | ⟨p0, _ | ⟨p1, _ | ⟨p2, ps⟩⟩⟩
    · rw [embedPixels_nil]; simp
    · rcases d with _ | ⟨r, _ | ⟨g, _ | ⟨b, _ | ⟨a, rest⟩⟩⟩⟩
      · simp [lsbBits] at h
      · simp [lsbBits] at h
      · simp [lsbBits] at h
      · simp [lsbBits] at h
      · exact (h3 r (g :: b :: a :: rest) p0 rfl rfl).elim
    · rcases d with _ | ⟨r, _ | ⟨g, _ | ⟨b, _ | ⟨a, rest⟩⟩⟩⟩
      · simp [lsbBits] at h
      · simp [lsbBits] at h
      · simp [lsbBits] at h
      · simp [lsbBits] at h
      · exact (h2 r g b (a :: rest) p0 p1 rfl rfl).elim
    · rcases d with _ | ⟨r, _ | ⟨g, _ | ⟨b, _ | ⟨a, rest⟩⟩⟩⟩
      · simp [lsbBits] at h
      · simp [lsbBits] at h
      · simp [lsbBits] at h
      · simp [lsbBits] at h
      · exact (h1 r g b a rest p0 p1 p2 ps rfl rfl).elim

theorem lsbBits_length (d : List Nat) : (lsbBits d).length = 3 * (d.length / 4) := by
  induction d using lsbBits.induct with
  | case1 r g b a rest ih =>
    simp only [lsbBits, List.length_cons, ih]
    omega
  | case2 d h1 =>
    rcases d with _ | ⟨r, _ | ⟨g, _ | ⟨b, _ | ⟨a, rest⟩⟩⟩⟩
    · simp [lsbBits]
    · simp [lsbBits]
    · simp [lsbBits]
    · simp [lsbBits]
    · exact (h1 r g b a rest rfl).elim

end BitLemmas

/-! ### Base64 (`window.btoa` / `window.atob`)

`CryptoEngine.bufferToBase64` maps each byte to a character and calls
`window.btoa`; `base64ToBuffer` calls `window.atob` and maps characters back
to bytes.  These platform functions are modelled concretely as the standard
base64 algorithm on byte lists.  (`atob` throws on invalid input where this
model returns a best-effort byte list; every such call site sits inside a
catch-all that erases the distinction.) -/

/-- Standard base64 alphabet: index 0–63 to ASCII code. -/
def b64EncChar (n : Nat) : Nat :=
  if n < 26 then 65 + n
  else if n < 52 then 97 + (n - 26)
  else if n < 62 then 48 + (n - 52)
  else if n = 62 then 43
  else 47

/-- Inverse of the base64 alphabet (ASCII code to index 0–63). -/
def b64DecChar (c : Nat) : Nat :=
  if 65 ≤ c ∧ c ≤ 90 then c - 65
  else if 97 ≤ c ∧ c ≤ 122 then 26 + (c - 97)
  else if 48 ≤ c ∧ c ≤ 57 then 52 + (c - 48)
  else if c = 43 then 62
  else 63

/-- Model of `CryptoEngine.bufferToBase64`: bytes to base64 character codes, with
`'='` (61) padding. -/
def bufferToBase64 : List Nat → List Nat
  | [] => []
  | [a] => [b64EncChar (a / 4), b64EncChar (a % 4 * 16), 61, 61]
  | [a, b] => [b64EncChar (a / 4), b64EncChar (a % 4 * 16 + b / 16), b64EncChar (b % 16 * 4), 61]
  | a :: b :: c :: t =>
      b64EncChar (a / 4) :: b64EncChar (a % 4 * 16 + b / 16) ::
      b64EncChar (b % 16 * 4 + c / 64) :: b64EncChar (c % 64) :: bufferToBase64 t

/-- Model of `CryptoEngine.base64ToBuffer`: base64 character codes back to bytes. -/
def base64ToBuffer : List Nat → List Nat
  | c1 :: c2 :: c3 :: c4 :: rest =>
      if c3 = 61 then [b64DecChar c1 * 4 + b64DecChar c2 / 16]
      else if c4 = 61 then
        [b64DecChar c1 * 4 + b64DecChar c2 / 16,
         b64DecChar c2 % 16 * 16 + b64DecChar c3 / 4]
      else
        (b64DecChar c1 * 4 + b64DecChar c2 / 16) ::
        (b64DecChar c2 % 16 * 16 + b64DecChar c3 / 4) ::
        (b64DecChar c3 % 4 * 64 + b64DecChar c4) :: base64ToBuffer rest
  | _ => []

section Base64Lemmas

theorem b64_dec_enc : ∀ n, n < 64 → b64DecChar (b64EncChar n) = n := by decide

theorem b64EncChar_ne_61 (n : Nat) : b64EncChar n ≠ 61 := by
  unfold b64EncChar
  split_ifs <;> omega

theorem b64EncChar_range (n : Nat) :
    43 ≤ b64EncChar n ∧ b64EncChar n ≤ 122 ∧ b64EncChar n ≠ 58 := by
  unfold b64EncChar
  split_ifs <;> omega

/-- Base64 round-trip on byte lists. -/
theorem base64_roundtrip (bs : List Nat) (h : ∀ b ∈ bs, b < 256) :
    base64ToBuffer (bufferToBase64 bs) = bs := by
  induction bs using bufferToBase64.induct with
  | case1 => rfl
  | case2 a =>
    have ha : a < 256 := h a (by simp)
    simp only [bufferToBase64, base64ToBuffer, eq_self_iff_true, if_true]
    rw [b64_dec_enc _ (by omega), b64_dec_enc _ (by omega)]
    simp only [List.cons.injEq, and_true]
    omega
  | case3 a b =>
    have ha : a < 256 := h a (by simp)
    have hb : b < 256 := h b (by simp)
    simp only [bufferToBase64, base64ToBuffer, b64EncChar_ne_61, eq_self_iff_true, if_true,
      if_false, ite_false]
    rw [b64_dec_enc _ (by omega), b64_dec_enc _ (by omega), b64_dec_enc _ (by omega)]
    simp only [List.cons.injEq, and_true]
    omega
  | case4 a b c t ih =>
    have ha : a < 256 := h a (by simp)
    have hb : b < 256 := h b (by simp)
    have hc : c < 256 := h c (by simp)
    simp only [bufferToBase64, base64ToBuffer, b64EncChar_ne_61, if_false, ite_false]
    rw [b64_dec_enc _ (by omega), b64_dec_enc _ (by omega), b64_dec_enc _ (by omega),
      b64_dec_enc _ (by omega), ih (fun x hx => h x (by simp [hx]))]
    simp only [List.cons.injEq, and_true]
    omega

/-- Every character `btoa` emits lies in the base64 alphabet range and in
particular is neither a colon nor whitespace. -/
theorem bufferToBase64_mem (bs : List Nat) :
    ∀ x ∈ bufferToBase64 bs, 43 ≤ x ∧ x ≤ 122 ∧ x ≠ 58 := by
  induction bs using bufferToBase64.induct with
  | case1 => simp [bufferToBase64]
  | case2 a =>
    intro x hx
    simp only [bufferToBase64, List.mem_cons, List.mem_singleton] at hx
    rcases hx with rfl | rfl | rfl | rfl | h
    · exact b64EncChar_range _
    · exact b64EncChar_range _
    · omega
    · omega
    · simp at h
  | case3 a b =>
    intro x hx
    simp only [bufferToBase64, List.mem_cons, List.mem_singleton] at hx
    rcases hx with rfl | rfl | rfl | rfl | h
    · exact b64EncChar_range _
    · exact b64EncChar_range _
    · exact b64EncChar_range _
    · omega
    · simp at h
  | case4 a b c t ih =>
    intro x hx
    simp only [bufferToBase64, List.mem_cons] at hx
    rcases hx with rfl | rfl | rfl | rfl | h
    · exact b64EncChar_range _
    · exact b64EncChar_range _
    · exact b64EncChar_range _
    · exact b64EncChar_range _
    · exact ih x h

end Base64Lemmas

/-! ### `String.prototype.split(':')` and `String.prototype.trim` -/

/-- JS `s.split(':')` on character-code lists:
`''.split(':') = ['']`, and each colon (code 58) starts a new segment. -/
def splitColon : List Nat → List (List Nat)
  | [] => [[]]
  | c :: rest =>
    if c = 58 then [] :: splitColon rest
    else
      match splitColon rest with
      | h :: t => (c :: h) :: t
      | [] => [[c]]

/-- The JS whitespace class removed by `String.prototype.trim`. -/
def isJsSpace (c : Nat) : Bool :=
  decide (c = 9 ∨ c = 10 ∨ c = 11 ∨ c = 12 ∨ c = 13 ∨ c = 32 ∨ c = 160 ∨ c = 5760 ∨
    (8192 ≤ c ∧ c ≤ 8202) ∨ c = 8232 ∨ c = 8233 ∨ c = 8239 ∨ c = 8287 ∨ c = 12288 ∨ c = 65279)

/-- JS `s.trim()`: strip leading and trailing whitespace. -/
def jsTrim (s : List Nat) : List Nat :=
  ((s.dropWhile isJsSpace).reverse.dropWhile isJsSpace).reverse

section SplitTrimLemmas

theorem splitColon_ne_nil (s : List Nat) : splitColon s ≠ [] := by
  induction s with
  | nil => simp [splitColon]
  | cons c rest ih =>
    simp only [splitColon]
    split_ifs
    · simp
    · cases hs : splitColon rest with
      | nil => simp
      | cons hh tt => simp

theorem splitColon_no_colon (s : List Nat) (h : ∀ c ∈ s, c ≠ 58) : splitColon s = [s] := by
  induction s with
  | nil => rfl
  | cons c rest ih =>
    simp only [splitColon, if_neg (h c (by simp))]
    rw [ih (fun x hx => h x (by simp [hx]))]

theorem splitColon_append (a rest : List Nat) (h : ∀ c ∈ a, c ≠ 58) :
    splitColon (a ++ 58 :: rest) = a :: splitColon rest := by
  induction a with
  | nil => simp [splitColon]
  | cons c t ih =>
    simp only [List.cons_append, splitColon, List.append_eq, if_neg (h c (by simp))]
    rw [ih (fun x hx => h x (by simp [hx]))]

theorem dropWhile_eq_self (p : Nat → Bool) (s : List Nat) (h : ∀ c ∈ s, p c = false) :
    s.dropWhile p = s := by
  cases s with
  | nil => rfl
  | cons c rest => simp [List.dropWhile_cons, h c (by simp)]

theorem jsTrim_eq_self (s : List Nat) (h : ∀ c ∈ s, isJsSpace c = false) : jsTrim s = s := by
  unfold jsTrim
  rw [dropWhile_eq_self _ _ h, dropWhile_eq_self _ _ (fun c hc => h c (List.mem_reverse.mp hc)),
    List.reverse_reverse]

theorem not_space_of_range (c : Nat) (h1 : 43 ≤ c) (h2 : c ≤ 122) : isJsSpace c = false := by
  simp only [isJsSpace, decide_eq_false_iff_not]
  omega

end SplitTrimLemmas

/-! ### The two `binaryToString` decoders

`StegoEngine.binaryToString` (stego.js) walks the bitstring in 16-character
chunks via `substr(i, 16)` and emits `String.fromCharCode(parseInt(chunk, 2))`
for every chunk, **including** a trailing chunk shorter than 16 bits.
`WatermarkEngine.binaryToString` (watermark.js) additionally guards
`if (byte.length === 16)`, discarding a short trailing chunk.
Both are rendered with an explicit fuel argument (any fuel at least the
list length gives the same result) so that they stay structurally recursive. -/

namespace StegoEngine

def binaryToStringCore : Nat → List Bool → List Nat
  | _, [] => []
  | 0, _ => []
  | fuel + 1, bs => bitsToNat (bs.take 16) :: binaryToStringCore fuel (bs.drop 16)

/-- Model of `StegoEngine.binaryToString`: 16-bit chunks, a short trailing chunk still
produces a character. -/
def binaryToString (bs : List Bool) : List Nat := binaryToStringCore bs.length bs

end StegoEngine

namespace WatermarkEngine

def binaryToStringCore : Nat → List Bool → List Nat
  | _, [] => []
  | 0, _ => []
  | fuel + 1, bs =>
    if (bs.take 16).length = 16 then bitsToNat (bs.take 16) :: binaryToStringCore fuel (bs.drop 16)
    else binaryToStringCore fuel (bs.drop 16)

/-- Model of `WatermarkEngine.binaryToString`: 16-bit chunks, a trailing chunk shorter
than 16 bits is discarded (`if (byte.length === 16)`). -/
def binaryToString (bs : List Bool) : List Nat := binaryToStringCore bs.length bs

end WatermarkEngine

section ChunkLemmas

theorem stego_binaryToStringCore_adequate :
    ∀ (f g : Nat) (bs : List Bool), bs.length ≤ f → bs.length ≤ g →
      StegoEngine.binaryToStringCore f bs = StegoEngine.binaryToStringCore g bs := by
  intro f
  induction f with
  | zero =>
    intro g bs hf _
    have : bs = [] := List.eq_nil_of_length_eq_zero (Nat.le_zero.mp hf)
    subst this
    cases g <;> rfl
  | succ f ih =>
    intro g bs hf hg
    cases bs with
    | nil => cases g <;> rfl
    | cons b rest =>
      cases g with
      | zero => simp at hg
      | succ g =>
        simp only [StegoEngine.binaryToStringCore]
        congr 1
        apply ih
        · simp only [List.length_drop, List.length_cons] at *
          omega
        · simp only [List.length_drop, List.length_cons] at *
          omega

theorem stego_binaryToString_chunk (bs : List Bool) (h : bs ≠ []) :
    StegoEngine.binaryToString bs =
      bitsToNat (bs.take 16) :: StegoEngine.binaryToString (bs.drop 16) := by
  unfold StegoEngine.binaryToString
  cases bs with
  | nil => exact absurd rfl h
  | cons b rest =>
    simp only [List.length_cons, StegoEngine.binaryToStringCore]
    congr 1
    apply stego_binaryToStringCore_adequate
    · simp only [List.length_drop, List.length_cons]
      omega
    · exact le_rfl

theorem wm_binaryToStringCore_adequate :
    ∀ (f g : Nat) (bs : List Bool), bs.length ≤ f → bs.length ≤ g →
      WatermarkEngine.binaryToStringCore f bs = WatermarkEngine.binaryToStringCore g bs := by
  intro f
  induction f with
  | zero =>
    intro g bs hf _
    have : bs = [] := List.eq_nil_of_length_eq_zero (Nat.le_zero.mp hf)
    subst this
    cases g <;> rfl
  | succ f ih =>
    intro g bs hf hg
    cases bs with
    | nil => cases g <;> rfl
    | cons b rest =>
      cases g with
      | zero => simp at hg
      | succ g =>
        simp only [WatermarkEngine.binaryToStringCore]
        have hd : ((b :: rest).drop 16).length ≤ f ∧ ((b :: rest).drop 16).length ≤ g := by
          constructor
          · simp only [List.length_drop, List.length_cons] at *
            omega
          · simp only [List.length_drop, List.length_cons] at *
            omega
        rw [ih g _ hd.1 hd.2]

theorem wm_binaryToString_chunk (bs : List Bool) (h : bs ≠ []) :
    WatermarkEngine.binaryToString bs =
      if (bs.take 16).length = 16 then
        bitsToNat (bs.take 16) :: WatermarkEngine.binaryToString (bs.drop 16)
      else WatermarkEngine.binaryToString (bs.drop 16) := by
  unfold WatermarkEngine.binaryToString
  cases bs with
  | nil => exact absurd rfl h
  | cons b rest =>
    simp only [List.length_cons, WatermarkEngine.binaryToStringCore]
    have had : ∀ g, ((b :: rest).drop 16).length ≤ g → WatermarkEngine.binaryToStringCore
        ((b :: rest).length - 1) ((b :: rest).drop 16) =
        WatermarkEngine.binaryToStringCore g ((b :: rest).drop 16) := by
      intro g hg
      apply wm_binaryToStringCore_adequate
      · simp only [List.length_drop, List.length_cons]
        omega
      · exact hg
    simp only [List.length_cons, Nat.add_sub_cancel] at had
    rw [had ((b :: rest).drop 16).length le_rfl]

/-- Length of the stego decoder's output: one character per started 16-bit
chunk (ceiling division). -/
theorem stego_binaryToString_length (bs : List Bool) :
    (StegoEngine.binaryToString bs).length = (bs.length + 15) / 16 := by
  generalize hn : bs.length = n
  induction n using Nat.strong_induction_on generalizing bs with
  | _ n ih =>
    cases bs with
    | nil =>
      simp only [List.length_nil] at hn
      subst hn
      rfl
    | cons b rest =>
      rw [stego_binaryToString_chunk _ (by simp)]
      simp only [List.length_cons] at hn
      rw [List.length_cons, ih ((b :: rest).drop 16).length (by simp; omega) _ rfl]
      simp only [List.length_drop, List.length_cons]
      omega

/-- Length of the watermark decoder's output: one character per complete
16-bit chunk (floor division). -/
theorem wm_binaryToString_length (bs : List Bool) :
    (WatermarkEngine.binaryToString bs).length = bs.length / 16 := by
  generalize hn : bs.length = n
  induction n using Nat.strong_induction_on generalizing bs with
  | _ n ih =>
    cases bs with
    | nil =>
      simp only [List.length_nil] at hn
      subst hn
      rfl
    | cons b rest =>
      rw [wm_binaryToString_chunk _ (by simp)]
      simp only [List.length_cons] at hn
      have hrec := ih ((b :: rest).drop 16).length (by simp; omega) _ rfl
      split_ifs with h16
      · rw [List.length_cons, hrec]
        simp only [List.length_take, List.length_cons] at h16 ⊢
        simp only [List.length_drop, List.length_cons]
        omega
      · rw [hrec]
        simp only [List.length_take, List.length_cons] at h16
        simp only [List.length_drop, List.length_cons]
        omega

/-- Decoding inverts encoding on whole characters: `binaryToString` applied to
`stringToBinary m` (stego version; every chunk is complete). -/
theorem StegoEngine.binaryToString_stringToBinary (m : List Nat)
    (h : ∀ c ∈ m, c < 2 ^ 16) :
    StegoEngine.binaryToString (stringToBinary m) = m := by
  induction m with
  | nil => rfl
  | cons c rest ih =>
    have hc : c < 2 ^ 16 := h c (by simp)
    have hlen : (padStart 16 (natToBin c)).length = 16 := by
      have : (natToBin c).length ≤ 16 := by
        unfold natToBin
        split_ifs with h0
        · simp
        · exact natBits_length_le 16 c hc
      simp only [padStart, List.length_append, List.length_replicate]
      omega
    have hne : stringToBinary (c :: rest) ≠ [] := by
      simp only [stringToBinary]
      intro hcontra
      have := congrArg List.length hcontra
      simp only [List.length_append, hlen, List.length_nil] at this
      omega
    rw [stego_binaryToString_chunk _ hne]
    simp only [stringToBinary]
    have htake : (padStart 16 (natToBin c) ++ stringToBinary rest).take 16 =
        padStart 16 (natToBin c) := List.take_left' hlen
    have hdrop : (padStart 16 (natToBin c) ++ stringToBinary rest).drop 16 =
        stringToBinary rest := List.drop_left' hlen
    rw [htake, hdrop, ih (fun x hx => h x (by simp [hx]))]
    have hval : bitsToNat (padStart 16 (natToBin c)) = c := by
      unfold padStart natToBin
      split_ifs with h0
      · subst h0
        rw [bitsToNat_replicate_false]
        rfl
      · rw [bitsToNat_replicate_false]
        exact bitsToNat_natBits c
    rw [hval]

end ChunkLemmas

/-! ### CryptoEngine (src/js/crypto.js)

The spec treats the platform primitives as an opaque **CryptoProvider**
capability: PBKDF2 key derivation (deterministic in password and salt),
AES-GCM authenticated encryption/decryption, and the UTF-8 text codec
(`TextEncoder`/`TextDecoder`).  `CryptoEngine`'s own logic — packing,
delimiting, base64, error policy — is modelled concretely below on top of it.
-/

/-- Platform crypto capability.  `deriveKey` models
`CryptoEngine.deriveKey(password, salt)` (PBKDF2 is a deterministic function
of the two); keys are opaque handles.  `aesGcmDecrypt` returns `none` when the
GCM authentication tag does not verify (WebCrypto throws there). -/
structure CryptoProvider where
  deriveKey : List Nat → List Nat → Nat
  aesGcmEncrypt : Nat → List Nat → List Nat → List Nat
  aesGcmDecrypt : Nat → List Nat → List Nat → Option (List Nat)
  utf8Encode : List Nat → List Nat
  utf8Decode : List Nat → List Nat

namespace CryptoEngine

/-- The literal `this.config` object of `CryptoEngine`'s constructor. -/
structure EngineConfig where
  algoName : String
  length : Nat
  hash : String
  iterations : Nat
  saltLength : Nat
  ivLength : Nat

/-- The `this.config` object from crypto.js: AES-GCM, 256-bit keys, SHA-256, 100000
PBKDF2 iterations, 16-byte salt, 12-byte IV. -/
def config : EngineConfig :=
  { algoName := "AES-GCM", length := 256, hash := "SHA-256",
    iterations := 100000, saltLength := 16, ivLength := 12 }

/-- Failures surfaced inside `decrypt`'s / `decryptFile`'s try block, before
the catch-all rewraps them. -/
inductive DecryptError where
  | malformedPacket
  | authFailed
  | metaParseFailed
  deriving DecidableEq

/-- The errors `CryptoEngine` actually throws to its callers.
`decryptionFailed` carries the message "Decryption failed. Incorrect password
or corrupted data."; `fileDecryptionFailed` the analogous file message. -/
inductive CryptoFailure where
  | decryptionFailed
  | fileDecryptionFailed
  deriving DecidableEq

/-- Model of `CryptoEngine.encrypt(plaintext, password)`.  The fresh random salt and IV
drawn from `getRandomValues` are passed explicitly (the engine imposes
`config.saltLength = 16` and `config.ivLength = 12` bytes on them).  Output is
the packed `saltB64:ivB64:cipherB64` string. -/
def encrypt (prov : CryptoProvider) (plaintext password salt iv : List Nat) : List Nat :=
  let key := prov.deriveKey password salt
  let encryptedBuffer := prov.aesGcmEncrypt key iv (prov.utf8Encode plaintext)
  bufferToBase64 salt ++ (58 :: (bufferToBase64 iv ++ (58 :: bufferToBase64 encryptedBuffer)))

/-- Body of `CryptoEngine.decrypt`'s try block: trim, split on `':'`, require
exactly 3 segments ("Invalid format. Expected 'salt:iv:ciphertext'."),
re-derive the key from the embedded salt, authenticated-decrypt, decode. -/
def decryptInner (prov : CryptoProvider) (packedString password : List Nat) :
    Except DecryptError (List Nat) :=
  match splitColon (jsTrim packedString) with
  | [saltB64, ivB64, cipherB64] =>
    let salt := base64ToBuffer saltB64
    let iv := base64ToBuffer ivB64
    let data := base64ToBuffer cipherB64
    let key := prov.deriveKey password salt
    match prov.aesGcmDecrypt key iv data with
    | some decryptedBuffer => .ok (prov.utf8Decode decryptedBuffer)
    | none => .error .authFailed
  | _ => .error .malformedPacket

/-- Model of `CryptoEngine.decrypt(packedString, password)`: the whole body sits in one
try/catch whose catch clause throws the single generic error "Decryption
failed. Incorrect password or corrupted data." — every inner failure,
including the wrong-segment-count check, is rewrapped into it. -/
def decrypt (prov : CryptoProvider) (packedString password : List Nat) :
    Except CryptoFailure (List Nat) :=
  match decryptInner prov packedString password with
  | .ok s => .ok s
  | .error _ => .error .decryptionFailed

/-- Model of `CryptoEngine.encryptFile(fileBuffer, password, metadata)`.  `metaString`
is the platform `JSON.stringify(metadata)` output; salt and IV are the fresh
random values of that one call.  One derived key and the one IV are used for
both the metadata ciphertext and the data ciphertext, and the four base64
segments are joined with `':'`. -/
def encryptFile (prov : CryptoProvider) (fileBuffer password salt iv metaString : List Nat) :
    List Nat :=
  let key := prov.deriveKey password salt
  let encryptedMeta := prov.aesGcmEncrypt key iv (prov.utf8Encode metaString)
  let encryptedData := prov.aesGcmEncrypt key iv fileBuffer
  bufferToBase64 salt ++ (58 :: (bufferToBase64 iv ++ (58 ::
    (bufferToBase64 encryptedMeta ++ (58 :: bufferToBase64 encryptedData)))))

/-- Decrypted file metadata `{filename, type, size}` as recovered by
`JSON.parse` in `decryptFile`. -/
structure FileMeta where
  filename : List Nat
  mimeType : List Nat
  size : Nat
  deriving DecidableEq

/-- Body of `CryptoEngine.decryptFile`'s try block: split on `':'` (no trim
here), require exactly 4 segments ("Invalid .obs file format"), re-derive the
key, decrypt metadata then data with the same key and IV.  `jsonParseMeta`
is the platform `JSON.parse` for the metadata record (`none` models a parse
throw). -/
def decryptFileInner (prov : CryptoProvider) (jsonParseMeta : List Nat → Option FileMeta)
    (text password : List Nat) : Except DecryptError (FileMeta × List Nat) :=
  match splitColon text with
  | [saltB64, ivB64, metaB64, dataB64] =>
    let salt := base64ToBuffer saltB64
    let iv := base64ToBuffer ivB64
    let encryptedMeta := base64ToBuffer metaB64
    let encryptedData := base64ToBuffer dataB64
    let key := prov.deriveKey password salt
    match prov.aesGcmDecrypt key iv encryptedMeta with
    | none => .error .authFailed
    | some metaBuffer =>
      match jsonParseMeta (prov.utf8Decode metaBuffer) with
      | none => .error .metaParseFailed
      | some metadata =>
        match prov.aesGcmDecrypt key iv encryptedData with
        | none => .error .authFailed
        | some dataBuffer => .ok (metadata, dataBuffer)
  | _ => .error .malformedPacket

/-- Model of `CryptoEngine.decryptFile(obsBlob, password)`: like `decrypt`, one
catch-all rewraps every inner failure into the generic "File decryption
failed. Incorrect password or corrupted file." error. -/
def decryptFile (prov : CryptoProvider) (jsonParseMeta : List Nat → Option FileMeta)
    (text password : List Nat) : Except CryptoFailure (FileMeta × List Nat) :=
  match decryptFileInner prov jsonParseMeta text password with
  | .ok r => .ok r
  | .error _ => .error .fileDecryptionFailed

end CryptoEngine

section CryptoLemmas

/-- A packed `a:b:c` string built from base64 segments splits back into
exactly those three segments, even after `trim`. -/
theorem splitColon_trim_packed (s1 s2 s3 : List Nat) :
    splitColon (jsTrim (bufferToBase64 s1 ++
        (58 :: (bufferToBase64 s2 ++ (58 :: bufferToBase64 s3))))) =
      [bufferToBase64 s1, bufferToBase64 s2, bufferToBase64 s3] := by
  have hmem : ∀ x ∈ bufferToBase64 s1 ++ (58 :: (bufferToBase64 s2 ++ (58 :: bufferToBase64 s3))),
      isJsSpace x = false := by
    intro x hx
    have hd : x = 58 ∨ x ∈ bufferToBase64 s1 ∨ x ∈ bufferToBase64 s2 ∨ x ∈ bufferToBase64 s3 := by
      simp only [List.mem_append, List.mem_cons] at hx
      tauto
    rcases hd with rfl | h | h | h
    · rfl
    · rcases bufferToBase64_mem s1 x h with ⟨ha, hb, _⟩
      exact not_space_of_range x ha hb
    · rcases bufferToBase64_mem s2 x h with ⟨ha, hb, _⟩
      exact not_space_of_range x ha hb
    · rcases bufferToBase64_mem s3 x h with ⟨ha, hb, _⟩
      exact not_space_of_range x ha hb
  rw [jsTrim_eq_self _ hmem]
  have h1 : ∀ c ∈ bufferToBase64 s1, c ≠ 58 := fun c hc => (bufferToBase64_mem s1 c hc).2.2
  have h2 : ∀ c ∈ bufferToBase64 s2, c ≠ 58 := fun c hc => (bufferToBase64_mem s2 c hc).2.2
  have h3 : ∀ c ∈ bufferToBase64 s3, c ≠ 58 := fun c hc => (bufferToBase64_mem s3 c hc).2.2
  rw [splitColon_append _ _ h1, splitColon_append _ _ h2, splitColon_no_colon _ h3]

/-- A packed 4-segment file packet splits back into its four base64 segments. -/
theorem splitColon_packed4 (s1 s2 s3 s4 : List Nat) :
    splitColon (bufferToBase64 s1 ++ (58 :: (bufferToBase64 s2 ++ (58 ::
        (bufferToBase64 s3 ++ (58 :: bufferToBase64 s4)))))) =
      [bufferToBase64 s1, bufferToBase64 s2, bufferToBase64 s3, bufferToBase64 s4] := by
  have h1 : ∀ c ∈ bufferToBase64 s1, c ≠ 58 := fun c hc => (bufferToBase64_mem s1 c hc).2.2
  have h2 : ∀ c ∈ bufferToBase64 s2, c ≠ 58 := fun c hc => (bufferToBase64_mem s2 c hc).2.2
  have h3 : ∀ c ∈ bufferToBase64 s3, c ≠ 58 := fun c hc => (bufferToBase64_mem s3 c hc).2.2
  have h4 : ∀ c ∈ bufferToBase64 s4, c ≠ 58 := fun c hc => (bufferToBase64_mem s4 c hc).2.2
  rw [splitColon_append _ _ h1, splitColon_append _ _ h2, splitColon_append _ _ h3,
    splitColon_no_colon _ h4]

end CryptoLemmas

/-! ### StegoEngine (src/js/stego.js) -/

/-- The `ImageData` object produced by the canvas: `width`, `height`, and the
RGBA byte array `data` of length `4 * width * height` (entries < 256). -/
structure ImageDta where
  width : Nat
  height : Nat
  data : List Nat
  deriving DecidableEq

namespace StegoEngine

/-- Errors `StegoEngine.encode`/`decode` can throw.  `capacityExceeded`
carries the numbers of the message "Message too long for this image.
Needed: <needed> bits, Available: <available> bits.".  `cryptoFailure` wraps
an error propagated out of `CryptoEngine.decrypt` on the password path. -/
inductive StegoError where
  | capacityExceeded (needed available : Nat)
  | cryptoFailure (e : CryptoEngine.CryptoFailure)
  deriving DecidableEq

/-- Model of `StegoEngine.encode(imageFile, message, password)`.  `encryptFn` models
`this.crypto.encrypt` (the fresh salt/IV randomness is internal to it);
with `password = none` it is never invoked.  Steps: optional encryption,
`stringToBinary`, the 32-bit length header via
`length.toString(2).padStart(32, '0')`, the capacity check against
`width*height*3` (before any write), then LSB embedding of
`lengthHeader + binaryMessage`. -/
def encode (encryptFn : List Nat → List Nat → List Nat) (img : ImageDta)
    (message : List Nat) (password : Option (List Nat)) : Except StegoError ImageDta :=
  let payloadContent := match password with
    | some pw => encryptFn message pw
    | none => message
  let binaryMessage := stringToBinary payloadContent
  let lengthHeader := padStart 32 (natToBin binaryMessage.length)
  let fullPayload := lengthHeader ++ binaryMessage
  let totalPixels := img.width * img.height
  let availableBits := totalPixels * 3
  if fullPayload.length > availableBits then
    .error (.capacityExceeded fullPayload.length availableBits)
  else
    .ok { img with data := embedPixels img.data fullPayload }

/-- Model of `StegoEngine.decode(imageFile, password)`.  The loop reads R,G,B LSBs in
pixel-major order (`lsbBits`); the first 32 bits form the header, whose
`parseInt` value is `messageLength`.  The source's sanity check
`if (messageLength <= 0 || messageLength > data.length * 3) { ... }`
has an **empty body** (stego.js lines 69–72), so no error is ever raised
there.  The loop returns the decoded text exactly when it accumulates
`messageLength` payload bits (possible only for `messageLength ≠ 0`, since
the equality test runs after appending a bit); in every other case it falls
through to `return ''`.  `decryptFn` models `this.crypto.decrypt` on the
password path. -/
def decode (decryptFn : List Nat → List Nat → Except CryptoEngine.CryptoFailure (List Nat))
    (img : ImageDta) (password : Option (List Nat)) : Except StegoError (List Nat) :=
  let bits := lsbBits img.data
  if bits.length < 32 then
    -- the header never completes; the loop ends and returns ''
    .ok []
  else
    let messageLength := bitsToNat (bits.take 32)
    -- stego.js lines 69-72: the sanity check on messageLength has an empty body
    let rest := bits.drop 32
    if messageLength ≠ 0 ∧ messageLength ≤ rest.length then
      let extractedText := binaryToString (rest.take messageLength)
      match password with
      | some pw =>
        match decryptFn extractedText pw with
        | .ok s => .ok s
        | .error e => .error (.cryptoFailure e)
      | none => .ok extractedText
    else
      -- the image is exhausted before messageLength bits are read: return ''
      .ok []

end StegoEngine

/-! ### WatermarkEngine (src/js/watermark.js) -/

namespace WatermarkEngine

/-- Errors thrown by `extractInvisibleWatermark`, in source order:
`corruptHeader` = "No watermark found or corrupted data",
`noWatermark` = "No valid Obscura watermark found",
`passwordRequired` = "This watermark is password protected. Please enter the
password.", `wrongPassword` = "Failed to decrypt watermark. Incorrect
password?", `corruptPayload` = "Could not parse watermark. Password might be
incorrect or data corrupted.". -/
inductive WmError where
  | corruptHeader
  | noWatermark
  | passwordRequired
  | wrongPassword
  | corruptPayload
  deriving DecidableEq

/-- The record returned by `extractInvisibleWatermark`: watermark text,
timestamp (`none` for the legacy fallback), version string, and the
`isProtected` flag. -/
structure WmRecord where
  watermark : List Nat
  timestamp : Option Nat
  version : List Nat
  isProtected : Bool
  deriving DecidableEq

/-- The payload fields of the embedded JSON object
`{watermark, timestamp, version}` as recovered by `JSON.parse`. -/
structure WmPayload where
  watermark : List Nat
  timestamp : Nat
  version : List Nat
  deriving DecidableEq

/-- The token `'OBSCURA_WM'` followed by the delimiter `'||'`: the signature prefix
checked with `extractedString.startsWith('OBSCURA_WM||')`. -/
def sigDelim : List Nat := [79, 66, 83, 67, 85, 82, 65, 95, 87, 77, 124, 124]

/-- The string `'Legacy'`, the version string of the legacy fallback record. -/
def legacyVersion : List Nat := [76, 101, 103, 97, 99, 121]

/-- JS `s.startsWith(pre)` on code-unit lists. -/
def listStartsWith (pre s : List Nat) : Bool := s.take pre.length == pre

/-- Model of `looksEncrypted` from `extractInvisibleWatermark`:
`!payloadString.trim().startsWith('{')` (`'{'` is code 123). -/
def looksEncrypted (payloadString : List Nat) : Bool :=
  !(listStartsWith [123] (jsTrim payloadString))

/-- The 32 header bits read by `extractInvisibleWatermark`'s first loop
(fewer if the buffer runs out). -/
def headerBits (img : ImageDta) : List Bool := (lsbBits img.data).take 32

/-- The value `messageLength = parseInt(lengthBinary, 2)`.  (For an empty read this is
`NaN` in JS; `wmHeaderBad` accounts for that case.) -/
def headerVal (img : ImageDta) : Nat := bitsToNat (headerBits img)

/-- The guard `messageLength <= 0 || messageLength > data.length * 3` of
`extractInvisibleWatermark`.  `parseInt('') = NaN` fails both comparisons,
so an empty header read never triggers the guard — hence the nonemptiness
conjunct. -/
def wmHeaderBad (img : ImageDta) : Prop :=
  headerBits img ≠ [] ∧ (headerVal img = 0 ∨ headerVal img > img.data.length * 3)

instance (img : ImageDta) : Decidable (wmHeaderBad img) := by
  unfold wmHeaderBad
  infer_instance

/-- The payload bits read by the second loop: it resumes at global bit index
32 (`i = Math.floor(bitIndex / 3) * 4`, `j = bitIndex % 3`) and collects at
most `messageLength` further LSBs, fewer if the buffer is exhausted. -/
def payloadBits (img : ImageDta) : List Bool :=
  ((lsbBits img.data).drop 32).take (headerVal img)

/-- The decoded payload text `binaryToString(payloadBinary)`. -/
def extractedText (img : ImageDta) : List Nat := binaryToString (payloadBits img)

/-- Final phase of `extractInvisibleWatermark`: JSON-parse the payload string
into a record; on parse failure either report corruption (when the payload
looked encrypted) or fall back to a legacy record carrying the raw string. -/
def finishExtract (jsonParse : List Nat → Option WmPayload) (payloadString : List Nat)
    (isProtected : Bool) : Except WmError WmRecord :=
  match jsonParse payloadString with
  | some p => .ok ⟨p.watermark, some p.timestamp, p.version, isProtected⟩
  | none =>
    if isProtected then .error .corruptPayload
    else .ok ⟨payloadString, none, legacyVersion, false⟩

/-- Model of `WatermarkEngine.extractInvisibleWatermark(imageFile, password)`.
`jsonParse` models the platform `JSON.parse` (`none` = parse throw) and
`decryptFn` models `this.crypto.decrypt`.  Pipeline: read the 32-bit header,
bound-check it, read `messageLength` payload bits, decode to text, require
the `OBSCURA_WM||` signature prefix, strip it, classify the remainder with
`looksEncrypted`, fail `passwordRequired` when it looks encrypted and no
password was given, decrypt when a password was given, then parse. -/
def extractInvisibleWatermark (jsonParse : List Nat → Option WmPayload)
    (decryptFn : List Nat → List Nat → Except CryptoEngine.CryptoFailure (List Nat))
    (img : ImageDta) (password : Option (List Nat)) : Except WmError WmRecord :=
  if wmHeaderBad img then
    .error .corruptHeader
  else
    let extracted := extractedText img
    if ¬ listStartsWith sigDelim extracted then
      .error .noWatermark
    else
      let payloadString := extracted.drop sigDelim.length
      let isProtected := looksEncrypted payloadString
      if isProtected ∧ password = none then
        .error .passwordRequired
      else
        match password with
        | some pw =>
          match decryptFn payloadString pw with
          | .error _ => .error .wrongPassword
          | .ok decrypted => finishExtract jsonParse decrypted isProtected
        | none => finishExtract jsonParse payloadString isProtected

end WatermarkEngine

section SupportLemmas

/-- The `parseInt` value of a 1 followed by `k` zeros is `2^k`. -/
theorem bitsToNat_true_replicate (k : Nat) :
    bitsToNat (true :: List.replicate k false) = 2 ^ k := by
  have hfold : ∀ (j a : Nat), List.foldl (fun x b => 2 * x + (if b then 1 else 0)) a
      (List.replicate j false) = a * 2 ^ j := by
    intro j
    induction j with
    | zero => intro a; simp
    | succ j ih =>
      intro a
      simp only [List.replicate_succ, List.foldl_cons, if_false, Bool.false_eq_true]
      rw [ih (2 * a + 0)]
      ring
  simp only [bitsToNat, List.foldl_cons, if_true]
  rw [hfold k (2 * 0 + 1)]
  ring

/-- The LSB stream of an all-zero RGBA buffer of `n` pixels. -/
theorem lsbBits_replicate_zero (n : Nat) :
    lsbBits (List.replicate (4 * n) 0) = List.replicate (3 * n) false := by
  induction n with
  | zero => rfl
  | succ n ih =>
    have h4 : 4 * (n + 1) = (4 * n) + 1 + 1 + 1 + 1 := by ring
    have h3 : 3 * (n + 1) = (3 * n) + 1 + 1 + 1 := by ring
    rw [h4, h3]
    simp only [List.replicate_succ]
    show lsbBits (0 :: 0 :: 0 :: 0 :: List.replicate (4 * n) 0) =
      false :: false :: false :: List.replicate (3 * n) false
    simp only [lsbBits, ih]
    rfl

/-- The `finishExtract` step can only fail with `corruptPayload`, never with the
header or signature errors. -/
theorem finishExtract_ne_corruptHeader (jsonParse : List Nat → Option WatermarkEngine.WmPayload)
    (payloadString : List Nat) (isProtected : Bool) :
    WatermarkEngine.finishExtract jsonParse payloadString isProtected ≠
      Except.error WatermarkEngine.WmError.corruptHeader := by
  unfold WatermarkEngine.finishExtract
  cases jsonParse payloadString with
  | some p => simp
  | none =>
    split_ifs <;> simp

end SupportLemmas

/-- Decidable equality for `Except` results, used to evaluate the engines on
concrete inputs. -/
instance {e a : Type} [DecidableEq e] [DecidableEq a] : DecidableEq (Except e a)
  | .error x, .error y =>
    if h : x = y then .isTrue (by rw [h]) else .isFalse (by simp [h])
  | .error _, .ok _ => .isFalse (by simp)
  | .ok _, .error _ => .isFalse (by simp)
  | .ok x, .ok y =>
    if h : x = y then .isTrue (by rw [h]) else .isFalse (by simp [h])

/-! ## The claims -/

/-- Shared trivial instantiation of the platform capability, used to evaluate
the engines on concrete inputs: key derivation returns a constant handle, the
cipher is the identity (which satisfies the AEAD round-trip laws), and the
text codec is the identity on byte lists. -/
def trivProv : CryptoProvider :=
  { deriveKey := fun _ _ => 0
    aesGcmEncrypt := fun _ _ m => m
    aesGcmDecrypt := fun _ _ c => some c
    utf8Encode := id
    utf8Decode := id }

/-- A provider whose authenticated decryption always rejects, to exercise the
AES-GCM authentication-failure path. -/
def noAuthProv : CryptoProvider :=
  { deriveKey := fun _ _ => 0
    aesGcmEncrypt := fun _ _ m => m
    aesGcmDecrypt := fun _ _ _ => none
    utf8Encode := id
    utf8Decode := id }

/-- Claim C6 (counterexample): the claim asserts that **both** binary-to-string
decoders discard a trailing group shorter than 16 bits.  The stego decoder
does not: on a 17-bit string it emits 2 characters, not `17 / 16 = 1` — the
short trailing bit becomes a spurious character. -/
theorem c6_counterexample :
    (StegoEngine.binaryToString (List.replicate 17 true)).length = 2 ∧
    (List.replicate 17 true : List Bool).length / 16 = 1 ∧
    (WatermarkEngine.binaryToString (List.replicate 17 true)).length = 1 := by
  decide

/-- Claim C6 (amended): only the watermark decoder discards a short trailing
group, yielding exactly `floor(len/16)` characters; the stego decoder instead
emits a character for the short group too, yielding `ceil(len/16)` characters. -/
theorem c6_binaryToString_truncation (bs : List Bool) :
    (WatermarkEngine.binaryToString bs).length = bs.length / 16 ∧
    (StegoEngine.binaryToString bs).length = (bs.length + 15) / 16 :=
  ⟨wm_binaryToString_length bs, stego_binaryToString_length bs⟩

/-- Claim C5 (counterexample): on an input with the wrong segment count
(`"abc"`, one segment) the error `decrypt` surfaces is the generic
`decryptionFailed` ("Decryption failed. Incorrect password or corrupted
data."), not a distinct malformed-packet error: the try/catch rewraps the
internal malformed-packet throw.  An authentication failure on a well-formed
3-segment packet surfaces as the very same error kind. -/
theorem c5_counterexample :
    CryptoEngine.decrypt trivProv [97, 98, 99] [112] =
      .error CryptoEngine.CryptoFailure.decryptionFailed ∧
    CryptoEngine.decryptInner trivProv [97, 98, 99] [112] =
      .error CryptoEngine.DecryptError.malformedPacket ∧
    CryptoEngine.decrypt noAuthProv [97, 58, 98, 58, 99] [112] =
      .error CryptoEngine.CryptoFailure.decryptionFailed := by
  decide

/-- Claim C5 (amended): for every input whose trimmed form does not split into
exactly 3 colon-separated segments, the body of `decrypt`'s try block raises
the malformed-packet error before any key derivation — but the catch-all
rewraps it, so the failure `decrypt` actually surfaces is the same generic
`decryptionFailed` used for authentication failures. -/
theorem c5_decrypt_malformed (prov : CryptoProvider) (packed password : List Nat)
    (h : (splitColon (jsTrim packed)).length ≠ 3) :
    CryptoEngine.decryptInner prov packed password =
      .error CryptoEngine.DecryptError.malformedPacket ∧
    CryptoEngine.decrypt prov packed password =
      .error CryptoEngine.CryptoFailure.decryptionFailed := by
  have hinner : CryptoEngine.decryptInner prov packed password =
      .error CryptoEngine.DecryptError.malformedPacket := by
    unfold CryptoEngine.decryptInner
    rcases hs : splitColon (jsTrim packed) with _ | ⟨a, _ | ⟨b, _ | ⟨c, _ | ⟨d, t⟩⟩⟩⟩
    · rfl
    · rfl
    · rfl
    · rw [hs] at h
      simp at h
    · rfl
  refine ⟨hinner, ?_⟩
  unfold CryptoEngine.decrypt
  rw [hinner]

/-- Claim C5 (witness). -/
theorem c5_decrypt_malformed_witness :
    (splitColon (jsTrim [97])).length ≠ 3 ∧
    (CryptoEngine.decryptInner trivProv [97] [112] =
        .error CryptoEngine.DecryptError.malformedPacket ∧
      CryptoEngine.decrypt trivProv [97] [112] =
        .error CryptoEngine.CryptoFailure.decryptionFailed) :=
  ⟨by decide, c5_decrypt_malformed trivProv [97] [112] (by decide)⟩

/-- Claim C9 (counterexample): `decryptFile` on a 1-segment input surfaces the
generic `fileDecryptionFailed` error, not a distinct malformed-packet error —
the internal malformed-packet classification is swallowed by the catch-all. -/
theorem c9_counterexample :
    CryptoEngine.decryptFile trivProv (fun _ => none) [97] [112] =
      .error CryptoEngine.CryptoFailure.fileDecryptionFailed ∧
    CryptoEngine.decryptFileInner trivProv (fun _ => none) [97] [112] =
      .error CryptoEngine.DecryptError.malformedPacket := by
  decide

/-- Claim C9 (amended): `encryptFile` packs exactly 4 colon-delimited base64
segments — salt, IV, metadata ciphertext, data ciphertext — where one derived
key (`deriveKey password salt`) and the one IV are used for both ciphertexts
of that call; `decryptFile` detects a wrong segment count as a malformed
packet inside its try block, but surfaces it as the generic
`fileDecryptionFailed` error. -/
theorem c9_file_packet_format (prov : CryptoProvider)
    (jsonParseMeta : List Nat → Option CryptoEngine.FileMeta)
    (fileBuffer password salt iv metaString text : List Nat)
    (htext : (splitColon text).length ≠ 4) :
    splitColon (CryptoEngine.encryptFile prov fileBuffer password salt iv metaString) =
      [bufferToBase64 salt, bufferToBase64 iv,
       bufferToBase64 (prov.aesGcmEncrypt (prov.deriveKey password salt) iv
         (prov.utf8Encode metaString)),
       bufferToBase64 (prov.aesGcmEncrypt (prov.deriveKey password salt) iv fileBuffer)] ∧
    CryptoEngine.decryptFileInner prov jsonParseMeta text password =
      .error CryptoEngine.DecryptError.malformedPacket ∧
    CryptoEngine.decryptFile prov jsonParseMeta text password =
      .error CryptoEngine.CryptoFailure.fileDecryptionFailed := by
  have hinner : CryptoEngine.decryptFileInner prov jsonParseMeta text password =
      .error CryptoEngine.DecryptError.malformedPacket := by
    unfold CryptoEngine.decryptFileInner
    rcases hs : splitColon text with _ | ⟨a, _ | ⟨b, _ | ⟨c, _ | ⟨d, _ | ⟨e, t⟩⟩⟩⟩⟩
    · rfl
    · rfl
    · rfl
    · rfl
    · rw [hs] at htext
      simp at htext
    · rfl
  refine ⟨?_, hinner, ?_⟩
  · simp only [CryptoEngine.encryptFile]
    exact splitColon_packed4 _ _ _ _
  · unfold CryptoEngine.decryptFile
    rw [hinner]

/-- Claim C9 (witness). -/
theorem c9_file_packet_format_witness :
    (splitColon [97]).length ≠ 4 ∧
    (splitColon (CryptoEngine.encryptFile trivProv [1, 2, 3] [112]
        (List.replicate 16 0) (List.replicate 12 0) [123, 125]) =
      [bufferToBase64 (List.replicate 16 0), bufferToBase64 (List.replicate 12 0),
       bufferToBase64 (trivProv.aesGcmEncrypt
         (trivProv.deriveKey [112] (List.replicate 16 0)) (List.replicate 12 0)
         (trivProv.utf8Encode [123, 125])),
       bufferToBase64 (trivProv.aesGcmEncrypt
         (trivProv.deriveKey [112] (List.replicate 16 0)) (List.replicate 12 0) [1, 2, 3])] ∧
      CryptoEngine.decryptFileInner trivProv (fun _ => none) [97] [112] =
        .error CryptoEngine.DecryptError.malformedPacket ∧
      CryptoEngine.decryptFile trivProv (fun _ => none) [97] [112] =
        .error CryptoEngine.CryptoFailure.fileDecryptionFailed) :=
  ⟨by decide, c9_file_packet_format trivProv (fun _ => none) [1, 2, 3] [112]
    (List.replicate 16 0) (List.replicate 12 0) [123, 125] [97] (by decide)⟩

/-- Claim C10 (confirmed): when the 32-bit header value `N` promises more
payload bits than the buffer holds (`3·width·height < 32 + N`, for any `N` the
32 header bits can encode, up to `2^32 - 1`), the password-less
`StegoEngine.decode` silently returns the empty string instead of raising any
error: a garbage header is indistinguishable from an empty payload. -/
theorem c10_decode_silent_on_exhaustion
    (decryptFn : List Nat → List Nat → Except CryptoEngine.CryptoFailure (List Nat))
    (img : ImageDta)
    (h32 : 32 ≤ (lsbBits img.data).length)
    (hshort : (lsbBits img.data).length < 32 + bitsToNat ((lsbBits img.data).take 32)) :
    StegoEngine.decode decryptFn img none = .ok [] := by
  simp only [StegoEngine.decode]
  split_ifs with h1 h2
  · rfl
  · rcases h2 with ⟨hne, hle⟩
    rw [List.length_drop] at hle
    omega
  · rfl

/-- Claim C10 (witness): an 11-pixel all-dark buffer whose first channel LSB
is 1, so the decoded header is `2^31`, far beyond the 33 available bits. -/
theorem c10_decode_silent_witness :
    32 ≤ (lsbBits (ImageDta.mk 11 1 (1 :: List.replicate 43 0)).data).length ∧
    (lsbBits (ImageDta.mk 11 1 (1 :: List.replicate 43 0)).data).length <
      32 + bitsToNat ((lsbBits (ImageDta.mk 11 1 (1 :: List.replicate 43 0)).data).take 32) ∧
    StegoEngine.decode (fun s _ => .ok s) (ImageDta.mk 11 1 (1 :: List.replicate 43 0)) none =
      .ok [] :=
  ⟨by decide, by decide,
    c10_decode_silent_on_exhaustion (fun s _ => .ok s) (ImageDta.mk 11 1 (1 :: List.replicate 43 0))
      (by decide) (by decide)⟩

/-- Claim C4 (counterexample): an 11-pixel all-zero buffer decodes a header
value of 0 — invalid by the claim (`N <= 0`) — yet the plain steganography
decode path returns `Except.ok ""` normally: its sanity-check block
(stego.js lines 69–72) is empty and raises nothing.  The claim asserts both
decode paths fail with an invalid-header error; the stego path fails in
neither sense. -/
theorem c4_counterexample :
    bitsToNat ((lsbBits (List.replicate 44 (0 : Nat))).take 32) = 0 ∧
    StegoEngine.decode (fun s _ => .ok s) (ImageDta.mk 11 1 (List.replicate 44 0)) none =
      .ok [] := by
  decide

/-- Claim C4 (amended): only the watermark extraction path enforces the header
bound, and its guard compares against `data.length * 3` — 12 bits per pixel of
the RGBA byte array, not the 3-bits-per-pixel capacity: extraction fails with
the corrupt-header error exactly when the header read is nonempty and its
value is 0 or exceeds `data.length * 3`.  The plain stego decode path performs
no such check and returns normally. -/
theorem c4_wm_corrupt_header (jsonParse : List Nat → Option WatermarkEngine.WmPayload)
    (decryptFn : List Nat → List Nat → Except CryptoEngine.CryptoFailure (List Nat))
    (img : ImageDta) (password : Option (List Nat)) :
    WatermarkEngine.extractInvisibleWatermark jsonParse decryptFn img password =
        .error WatermarkEngine.WmError.corruptHeader ↔
      WatermarkEngine.wmHeaderBad img := by
  constructor
  · intro hres
    by_contra hbad
    simp only [WatermarkEngine.extractInvisibleWatermark] at hres
    rw [if_neg hbad] at hres
    split_ifs at hres with hsig hpw
    all_goals
      first
      | simp at hres
      | (rcases password with _ | pw
         · exact absurd hres (finishExtract_ne_corruptHeader _ _ _)
         · dsimp only at hres
           rcases hdec : decryptFn (List.drop WatermarkEngine.sigDelim.length
               (WatermarkEngine.extractedText img)) pw with e | dec
           · rw [hdec] at hres
             simp at hres
           · rw [hdec] at hres
             exact absurd hres (finishExtract_ne_corruptHeader _ _ _))
  · intro hb
    unfold WatermarkEngine.extractInvisibleWatermark
    rw [if_pos hb]

/-- Claim C4 (witness): an 11-pixel all-zero buffer has a nonempty header read
of value 0, and the watermark extractor rejects it with the corrupt-header
error. -/
theorem c4_wm_corrupt_header_witness :
    WatermarkEngine.wmHeaderBad (ImageDta.mk 11 1 (List.replicate 44 0)) ∧
    WatermarkEngine.extractInvisibleWatermark (fun _ => none) (fun s _ => .ok s)
        (ImageDta.mk 11 1 (List.replicate 44 0)) none =
      .error WatermarkEngine.WmError.corruptHeader :=
  ⟨by decide,
    (c4_wm_corrupt_header (fun _ => none) (fun s _ => .ok s)
      (ImageDta.mk 11 1 (List.replicate 44 0)) none).mpr (by decide)⟩

/-- Claim C7 (confirmed): whenever the header read passes the bound check but
the decoded text does not start with `'OBSCURA_WM||'`,
`extractInvisibleWatermark` fails with the no-watermark error (a different
error from the corrupt-header one) for every JSON parser, decryptor and
password — it never returns a watermark record. -/
theorem c7_wm_signature_gate (jsonParse : List Nat → Option WatermarkEngine.WmPayload)
    (decryptFn : List Nat → List Nat → Except CryptoEngine.CryptoFailure (List Nat))
    (img : ImageDta) (password : Option (List Nat))
    (hok : ¬ WatermarkEngine.wmHeaderBad img)
    (hsig : WatermarkEngine.listStartsWith WatermarkEngine.sigDelim
      (WatermarkEngine.extractedText img) = false) :
    WatermarkEngine.extractInvisibleWatermark jsonParse decryptFn img password =
      .error WatermarkEngine.WmError.noWatermark := by
  simp only [WatermarkEngine.extractInvisibleWatermark]
  rw [if_neg hok, if_pos (by simp [hsig])]

/-- Claim C7 (witness): a buffer carrying the framed text `"AB"` — valid
header, no signature. -/
theorem c7_wm_signature_gate_witness :
    ¬ WatermarkEngine.wmHeaderBad (ImageDta.mk 22 1 (embedPixels (List.replicate 88 0)
        (padStart 32 (natToBin 32) ++ stringToBinary [65, 66]))) ∧
    WatermarkEngine.listStartsWith WatermarkEngine.sigDelim
      (WatermarkEngine.extractedText (ImageDta.mk 22 1 (embedPixels (List.replicate 88 0)
        (padStart 32 (natToBin 32) ++ stringToBinary [65, 66])))) = false ∧
    WatermarkEngine.extractInvisibleWatermark (fun _ => none) (fun s _ => .ok s)
        (ImageDta.mk 22 1 (embedPixels (List.replicate 88 0)
          (padStart 32 (natToBin 32) ++ stringToBinary [65, 66]))) none =
      .error WatermarkEngine.WmError.noWatermark :=
  ⟨by decide, by decide,
    c7_wm_signature_gate (fun _ => none) (fun s _ => .ok s) _ none (by decide) (by decide)⟩

/-- A watermark image embedding the framed text `'OBSCURA_WM|| {}'` — note the
space before the brace. -/
def wmSpaceBraceImg : ImageDta :=
  ImageDta.mk 91 1 (embedPixels (List.replicate 364 0)
    (padStart 32 (natToBin 240) ++ stringToBinary (WatermarkEngine.sigDelim ++ [32, 123, 125])))

/-- Claim C8 (counterexample): after stripping the signature the remainder
`' {}'` does **not** start with `'{'`, so the claim classifies it
looks-encrypted and predicts a `passwordRequired` failure without a password.
The code trims first: `' {}'.trim()` starts with `'{'`, the payload is
classified as not encrypted, and extraction returns a record normally. -/
theorem c8_counterexample :
    WatermarkEngine.listStartsWith [123] [32, 123, 125] = false ∧
    WatermarkEngine.looksEncrypted [32, 123, 125] = false ∧
    WatermarkEngine.extractInvisibleWatermark (fun _ => none) (fun s _ => .ok s)
        wmSpaceBraceImg none =
      .ok ⟨[32, 123, 125], none, WatermarkEngine.legacyVersion, false⟩ := by
  decide

/-- Claim C8 (amended): the remainder is classified looks-encrypted exactly
when its **whitespace-trimmed** form does not start with `'{'` (the
`looksEncrypted` definition); when it is so classified and no password is
supplied, extraction fails with the recoverable `passwordRequired` error
before any decryption or JSON parsing is attempted (the conclusion holds for
every decryptor and JSON parser). -/
theorem c8_password_required (jsonParse : List Nat → Option WatermarkEngine.WmPayload)
    (decryptFn : List Nat → List Nat → Except CryptoEngine.CryptoFailure (List Nat))
    (img : ImageDta)
    (hok : ¬ WatermarkEngine.wmHeaderBad img)
    (hsig : WatermarkEngine.listStartsWith WatermarkEngine.sigDelim
      (WatermarkEngine.extractedText img) = true)
    (henc : WatermarkEngine.looksEncrypted
      ((WatermarkEngine.extractedText img).drop WatermarkEngine.sigDelim.length) = true) :
    WatermarkEngine.extractInvisibleWatermark jsonParse decryptFn img none =
      .error WatermarkEngine.WmError.passwordRequired := by
  simp only [WatermarkEngine.extractInvisibleWatermark]
  rw [if_neg hok, if_neg (by simp [hsig]), if_pos (by simp [henc])]

/-- A watermark image embedding the framed text `'OBSCURA_WM||X'`: the
remainder `'X'` survives trimming and does not start with `'{'`. -/
def wmProtectedImg : ImageDta :=
  ImageDta.mk 80 1 (embedPixels (List.replicate 320 0)
    (padStart 32 (natToBin 208) ++ stringToBinary (WatermarkEngine.sigDelim ++ [88])))

/-- Claim C8 (witness). -/
theorem c8_password_required_witness :
    ¬ WatermarkEngine.wmHeaderBad wmProtectedImg ∧
    WatermarkEngine.listStartsWith WatermarkEngine.sigDelim
      (WatermarkEngine.extractedText wmProtectedImg) = true ∧
    WatermarkEngine.looksEncrypted
      ((WatermarkEngine.extractedText wmProtectedImg).drop
        WatermarkEngine.sigDelim.length) = true ∧
    WatermarkEngine.extractInvisibleWatermark (fun _ => none) (fun s _ => .ok s)
        wmProtectedImg none =
      .error WatermarkEngine.WmError.passwordRequired :=
  ⟨by decide, by decide, by decide,
    c8_password_required (fun _ => none) (fun s _ => .ok s) wmProtectedImg
      (by decide) (by decide) (by decide)⟩

/-- Claim C2 (confirmed): for every platform provider satisfying the AES-GCM
round-trip and byte-output laws at the relevant instances (WebCrypto does),
every non-empty plaintext, password, 16-byte salt and 12-byte IV,
`decrypt(encrypt(m, p), p)` returns `m`.  `encrypt` emits the three-segment
packed string `saltB64:ivB64:cipherB64`, and `decrypt` re-derives the key
from the very salt embedded in the packet with the same `deriveKey` under the
same engine configuration (PBKDF2, HMAC-SHA-256, 100,000 iterations, 256-bit
AES-GCM key). -/
theorem c2_crypto_roundtrip (prov : CryptoProvider) (m password salt iv : List Nat)
    (hm : m ≠ [])
    (hsalt : salt.length = 16) (hiv : iv.length = 12)
    (hsaltB : ∀ b ∈ salt, b < 256) (hivB : ∀ b ∈ iv, b < 256)
    (hcipherB : ∀ b ∈ prov.aesGcmEncrypt (prov.deriveKey password salt) iv
      (prov.utf8Encode m), b < 256)
    (haead : prov.aesGcmDecrypt (prov.deriveKey password salt) iv
        (prov.aesGcmEncrypt (prov.deriveKey password salt) iv (prov.utf8Encode m)) =
      some (prov.utf8Encode m))
    (hutf : prov.utf8Decode (prov.utf8Encode m) = m) :
    CryptoEngine.decrypt prov (CryptoEngine.encrypt prov m password salt iv) password = .ok m ∧
    splitColon (jsTrim (CryptoEngine.encrypt prov m password salt iv)) =
      [bufferToBase64 salt, bufferToBase64 iv,
       bufferToBase64 (prov.aesGcmEncrypt (prov.deriveKey password salt) iv
         (prov.utf8Encode m))] ∧
    salt.length = CryptoEngine.config.saltLength ∧
    iv.length = CryptoEngine.config.ivLength ∧
    CryptoEngine.config.iterations = 100000 ∧
    CryptoEngine.config.hash = "SHA-256" ∧
    CryptoEngine.config.length = 256 ∧
    CryptoEngine.config.algoName = "AES-GCM" := by
  have hsplit : splitColon (jsTrim (CryptoEngine.encrypt prov m password salt iv)) =
      [bufferToBase64 salt, bufferToBase64 iv,
       bufferToBase64 (prov.aesGcmEncrypt (prov.deriveKey password salt) iv
         (prov.utf8Encode m))] := by
    simp only [CryptoEngine.encrypt]
    exact splitColon_trim_packed _ _ _
  refine ⟨?_, hsplit, hsalt, hiv, rfl, rfl, rfl, rfl⟩
  unfold CryptoEngine.decrypt CryptoEngine.decryptInner
  rw [hsplit]
  simp only [base64_roundtrip salt hsaltB, base64_roundtrip iv hivB,
    base64_roundtrip _ hcipherB, haead, hutf]

/-- Claim C2 (witness): the trivial provider satisfies all the platform laws
at the instance used, and the round-trip evaluates on `"hi"` (`[104, 105]`). -/
theorem c2_crypto_roundtrip_witness :
    ([104, 105] : List Nat) ≠ [] ∧
    (CryptoEngine.decrypt trivProv
        (CryptoEngine.encrypt trivProv [104, 105] [112] (List.replicate 16 0)
          (List.replicate 12 0)) [112] = .ok [104, 105] ∧
      splitColon (jsTrim (CryptoEngine.encrypt trivProv [104, 105] [112]
          (List.replicate 16 0) (List.replicate 12 0))) =
        [bufferToBase64 (List.replicate 16 0), bufferToBase64 (List.replicate 12 0),
         bufferToBase64 (trivProv.aesGcmEncrypt
           (trivProv.deriveKey [112] (List.replicate 16 0)) (List.replicate 12 0)
           (trivProv.utf8Encode [104, 105]))] ∧
      (List.replicate 16 (0 : Nat)).length = CryptoEngine.config.saltLength ∧
      (List.replicate 12 (0 : Nat)).length = CryptoEngine.config.ivLength ∧
      CryptoEngine.config.iterations = 100000 ∧
      CryptoEngine.config.hash = "SHA-256" ∧
      CryptoEngine.config.length = 256 ∧
      CryptoEngine.config.algoName = "AES-GCM") :=
  ⟨by decide,
    c2_crypto_roundtrip trivProv [104, 105] [112] (List.replicate 16 0) (List.replicate 12 0)
      (by decide) (by decide) (by decide) (by decide) (by decide) (by decide) (by decide)
      (by decide)⟩

/-- Claim C3 (amended): provided the framed bit count fits the 32-bit header
(`16·len(m) < 2^32`), embedding succeeds exactly when
`32 + 16·len(m) ≤ width·height·3`; equality succeeds, and one bit over fails
with the capacity error carrying exactly the needed and available bit counts.
The check precedes the embedding loop, so a failing call performs no write.
(For larger messages `padStart(32)` does not truncate and the header exceeds
32 bits — see the counterexample.) -/
theorem c3_capacity_boundary (encryptFn : List Nat → List Nat → List Nat)
    (img : ImageDta) (m : List Nat)
    (hwf : ∀ c ∈ m, c < 2 ^ 16)
    (hsmall : 16 * m.length < 2 ^ 32) :
    ((∃ out, StegoEngine.encode encryptFn img m none = .ok out) ↔
      32 + 16 * m.length ≤ img.width * img.height * 3) ∧
    (img.width * img.height * 3 < 32 + 16 * m.length →
      StegoEngine.encode encryptFn img m none =
        .error (.capacityExceeded (32 + 16 * m.length) (img.width * img.height * 3))) := by
  have hb : (stringToBinary m).length = 16 * m.length := stringToBinary_length m hwf
  have hh : (padStart 32 (natToBin (stringToBinary m).length)).length = 32 := by
    rw [hb]
    exact padStart32_length _ hsmall
  have hfull : (padStart 32 (natToBin (stringToBinary m).length) ++ stringToBinary m).length =
      32 + 16 * m.length := by
    rw [List.length_append, hh, hb]
  simp only [StegoEngine.encode, hfull]
  by_cases hcap : 32 + 16 * m.length ≤ img.width * img.height * 3
  · rw [if_neg (by omega)]
    refine ⟨⟨fun _ => hcap, fun _ => ⟨_, rfl⟩⟩, fun hlt => absurd hcap (by omega)⟩
  · rw [if_pos (by omega)]
    constructor
    · constructor
      · intro hex
        rcases hex with ⟨out, hout⟩
        simp at hout
      · intro hle
        exact absurd hle hcap
    · intro _
      rfl

/-- Claim C3 (witness): `"h"` (48 framed bits) into a 4×4 image (48 available
bits, the exact-equality case) succeeds; into a 1×1 image (3 available bits)
it fails with `needed = 48`, `available = 3`. -/
theorem c3_capacity_boundary_witness :
    (∀ c ∈ ([104] : List Nat), c < 2 ^ 16) ∧ 16 * ([104] : List Nat).length < 2 ^ 32 ∧
    (((∃ out, StegoEngine.encode (fun s _ => s) (ImageDta.mk 4 4 (List.replicate 64 0))
          [104] none = .ok out) ↔
        32 + 16 * ([104] : List Nat).length ≤
          (ImageDta.mk 4 4 (List.replicate 64 0)).width *
            (ImageDta.mk 4 4 (List.replicate 64 0)).height * 3) ∧
      ((ImageDta.mk 4 4 (List.replicate 64 0)).width *
          (ImageDta.mk 4 4 (List.replicate 64 0)).height * 3 <
          32 + 16 * ([104] : List Nat).length →
        StegoEngine.encode (fun s _ => s) (ImageDta.mk 4 4 (List.replicate 64 0)) [104] none =
          .error (.capacityExceeded (32 + 16 * ([104] : List Nat).length)
            ((ImageDta.mk 4 4 (List.replicate 64 0)).width *
              (ImageDta.mk 4 4 (List.replicate 64 0)).height * 3)))) ∧
    (((∃ out, StegoEngine.encode (fun s _ => s) (ImageDta.mk 1 1 (List.replicate 4 0))
          [104] none = .ok out) ↔
        32 + 16 * ([104] : List Nat).length ≤
          (ImageDta.mk 1 1 (List.replicate 4 0)).width *
            (ImageDta.mk 1 1 (List.replicate 4 0)).height * 3) ∧
      ((ImageDta.mk 1 1 (List.replicate 4 0)).width *
          (ImageDta.mk 1 1 (List.replicate 4 0)).height * 3 <
          32 + 16 * ([104] : List Nat).length →
        StegoEngine.encode (fun s _ => s) (ImageDta.mk 1 1 (List.replicate 4 0)) [104] none =
          .error (.capacityExceeded (32 + 16 * ([104] : List Nat).length)
            ((ImageDta.mk 1 1 (List.replicate 4 0)).width *
              (ImageDta.mk 1 1 (List.replicate 4 0)).height * 3)))) :=
  ⟨by decide, by decide,
    c3_capacity_boundary (fun s _ => s) (ImageDta.mk 4 4 (List.replicate 64 0)) [104]
      (by decide) (by decide),
    c3_capacity_boundary (fun s _ => s) (ImageDta.mk 1 1 (List.replicate 4 0)) [104]
      (by decide) (by decide)⟩

/-- Password-less `decode` on a buffer whose LSB stream is a well-formed frame
(32-bit header of `stringToBinary m`'s length, then the message bits, then
anything) recovers `m` exactly, stopping after `header` many payload bits. -/
theorem stego_decode_framed
    (decryptFn : List Nat → List Nat → Except CryptoEngine.CryptoFailure (List Nat))
    (img : ImageDta) (m : List Nat) (suffix : List Bool)
    (hwf : ∀ c ∈ m, c < 2 ^ 16)
    (hsmall : 16 * m.length < 2 ^ 32)
    (hbits : lsbBits img.data =
      (padStart 32 (natToBin (stringToBinary m).length) ++ stringToBinary m) ++ suffix) :
    StegoEngine.decode decryptFn img none = .ok m := by
  have hb : (stringToBinary m).length = 16 * m.length := stringToBinary_length m hwf
  have hL : (padStart 32 (natToBin (stringToBinary m).length)).length = 32 := by
    rw [hb]
    exact padStart32_length _ hsmall
  simp only [StegoEngine.decode, hbits, List.append_assoc, List.length_append, hL]
  rw [List.take_left' hL, List.drop_left' hL, bitsToNat_padStart_natToBin]
  by_cases hm0 : m = []
  · subst hm0
    rw [if_neg (by omega), if_neg (by simp [stringToBinary])]
  · have hmlen : m.length ≠ 0 := fun hc => hm0 (List.eq_nil_of_length_eq_zero hc)
    rw [if_neg (by omega), if_pos ⟨by omega, by simp⟩, List.take_left' rfl,
      StegoEngine.binaryToString_stringToBinary m hwf]

/-- Claim C1 (amended): provided the framed bit count fits the 32-bit header
(`16·len(m) < 2^32`), embedding `m` without a password into any pixel buffer
of capacity at least `32 + 16·len(m)` bits and extracting without a password
yields exactly `m`; embedding and extraction traverse the same pixel-major
R,G,B channel order bit for bit (`lsbBits_embedPixels`).  (For
`16·len(m) ≥ 2^32` the `padStart(32)` header exceeds 32 bits and the
round-trip breaks — see the counterexample.) -/
theorem c1_stego_roundtrip (encryptFn : List Nat → List Nat → List Nat)
    (decryptFn : List Nat → List Nat → Except CryptoEngine.CryptoFailure (List Nat))
    (img : ImageDta) (m : List Nat)
    (hwf : ∀ c ∈ m, c < 2 ^ 16)
    (hsmall : 16 * m.length < 2 ^ 32)
    (hdata : img.data.length = 4 * (img.width * img.height))
    (hcap : 32 + 16 * m.length ≤ img.width * img.height * 3) :
    ∃ out, StegoEngine.encode encryptFn img m none = .ok out ∧
      StegoEngine.decode decryptFn out none = .ok m := by
  have hb : (stringToBinary m).length = 16 * m.length := stringToBinary_length m hwf
  have hL : (padStart 32 (natToBin (stringToBinary m).length)).length = 32 := by
    rw [hb]
    exact padStart32_length _ hsmall
  have hfull : (padStart 32 (natToBin (stringToBinary m).length) ++ stringToBinary m).length =
      32 + 16 * m.length := by
    rw [List.length_append, hL, hb]
  have hlsb : (lsbBits img.data).length = 3 * (img.width * img.height) := by
    rw [lsbBits_length, hdata]
    omega
  have henc : StegoEngine.encode encryptFn img m none =
      .ok { img with data := (embedPixels img.data
        (padStart 32 (natToBin (stringToBinary m).length) ++ stringToBinary m)) } := by
    simp only [StegoEngine.encode, hfull]
    rw [if_neg (by omega)]
  refine ⟨_, henc, ?_⟩
  apply stego_decode_framed decryptFn _ m
      ((lsbBits img.data).drop
        (padStart 32 (natToBin (stringToBinary m).length) ++ stringToBinary m).length)
      hwf hsmall
  show lsbBits (embedPixels img.data _) = _
  rw [lsbBits_embedPixels _ _ (by rw [hfull, hlsb]; omega)]

/-- Claim C1 (witness): `"h"` (`[104]`) into a 4×4 all-zero image — 48 framed
bits into 48 available bits — encodes and decodes back to `"h"`. -/
theorem c1_stego_roundtrip_witness :
    (∀ c ∈ ([104] : List Nat), c < 2 ^ 16) ∧
    16 * ([104] : List Nat).length < 2 ^ 32 ∧
    (ImageDta.mk 4 4 (List.replicate 64 0)).data.length =
      4 * ((ImageDta.mk 4 4 (List.replicate 64 0)).width *
        (ImageDta.mk 4 4 (List.replicate 64 0)).height) ∧
    32 + 16 * ([104] : List Nat).length ≤
      (ImageDta.mk 4 4 (List.replicate 64 0)).width *
        (ImageDta.mk 4 4 (List.replicate 64 0)).height * 3 ∧
    ∃ out, StegoEngine.encode (fun s _ => s) (ImageDta.mk 4 4 (List.replicate 64 0))
        [104] none = .ok out ∧
      StegoEngine.decode (fun s _ => .ok s) out none = .ok [104] :=
  ⟨by decide, by decide, by decide, by decide,
    c1_stego_roundtrip (fun s _ => s) (fun s _ => .ok s)
      (ImageDta.mk 4 4 (List.replicate 64 0)) [104]
      (by decide) (by decide) (by decide) (by decide)⟩

/-! ### The header-overflow counterexamples

JS `padStart(32, '0')` never truncates: a message of `2^28` characters has
`2^32` payload bits, whose binary rendering is 33 characters long, so the
"32-bit" header of the frame is actually 33 bits.  Both the capacity
arithmetic and the round-trip break there.  (The buffers below are huge, so
every proof about them is symbolic: `List.replicate` literals stay folded
behind definitions.) -/

/-- A `2^28`-character message of `'A'`s (code 65): the smallest length whose
16-bit-per-character payload no longer fits the 32-bit header. -/
def bigMsg : List Nat := List.replicate (2 ^ 28) 65

theorem bigMsg_wf : ∀ c ∈ bigMsg, c < 2 ^ 16 := by
  intro c hc
  have hc65 := List.eq_of_mem_replicate hc
  subst hc65
  norm_num

theorem bigMsg_length : bigMsg.length = 2 ^ 28 := by
  rw [bigMsg, List.length_replicate]

theorem bigMsg_bits_length : (stringToBinary bigMsg).length = 4294967296 := by
  rw [stringToBinary_length bigMsg bigMsg_wf, bigMsg_length]
  norm_num

/-- The frame header of `bigMsg` is `'1'` followed by 32 `'0'`s — 33
characters, because `padStart(32)` does not truncate the 33-digit binary
rendering of `2^32`. -/
theorem bigMsg_header :
    padStart 32 (natToBin (stringToBinary bigMsg).length) = true :: List.replicate 32 false := by
  rw [bigMsg_bits_length, show (4294967296 : Nat) = 2 ^ 32 from by norm_num]
  unfold natToBin
  rw [if_neg (by positivity), natBits_two_pow 32]
  unfold padStart
  rw [List.length_cons, List.length_replicate,
    show (32 - (32 + 1) : Nat) = 0 from by norm_num, List.replicate_zero, List.nil_append]

theorem bigMsg_full_length :
    (padStart 32 (natToBin (stringToBinary bigMsg).length) ++ stringToBinary bigMsg).length =
      4294967329 := by
  rw [List.length_append, bigMsg_header, bigMsg_bits_length, List.length_cons,
    List.length_replicate]

/-- Without a password, `encode` fails with the capacity error, reporting the
frame length and the available bits, whenever the frame exceeds
`width·height·3`. -/
theorem stego_encode_error (encryptFn : List Nat → List Nat → List Nat)
    (img : ImageDta) (m : List Nat)
    (h : img.width * img.height * 3 <
      (padStart 32 (natToBin (stringToBinary m).length) ++ stringToBinary m).length) :
    StegoEngine.encode encryptFn img m none =
      .error (.capacityExceeded
        (padStart 32 (natToBin (stringToBinary m).length) ++ stringToBinary m).length
        (img.width * img.height * 3)) := by
  simp only [StegoEngine.encode]
  rw [if_pos (by omega)]

/-- Without a password, `encode` succeeds and embeds the frame whenever it
fits. -/
theorem stego_encode_ok (encryptFn : List Nat → List Nat → List Nat)
    (img : ImageDta) (m : List Nat)
    (h : (padStart 32 (natToBin (stringToBinary m).length) ++ stringToBinary m).length ≤
      img.width * img.height * 3) :
    StegoEngine.encode encryptFn img m none =
      .ok (ImageDta.mk img.width img.height (embedPixels img.data
        (padStart 32 (natToBin (stringToBinary m).length) ++ stringToBinary m))) := by
  simp only [StegoEngine.encode]
  rw [if_neg (by omega)]

/-- The 1431655776 × 1 cover image whose capacity is exactly the claim's
framed bit length for `bigMsg`. -/
def c3Img : ImageDta := ImageDta.mk 1431655776 1 (List.replicate (4 * 1431655776) 0)

/-- Claim C3 (counterexample): with `m = bigMsg` the claim's framed bit length
`32 + 16·len(m)` equals the available `width·height·3 = 4294967328` bits of
`c3Img` exactly, so the claim says embedding succeeds — but the real frame is
4294967329 bits (33-bit header) and `encode` fails with the capacity error. -/
theorem c3_counterexample :
    32 + 16 * bigMsg.length = c3Img.width * c3Img.height * 3 ∧
    StegoEngine.encode (fun s _ => s) c3Img bigMsg none =
      .error (StegoEngine.StegoError.capacityExceeded 4294967329 4294967328) := by
  constructor
  · rw [bigMsg_length, show c3Img.width = 1431655776 from rfl, show c3Img.height = 1 from rfl]
    norm_num
  · rw [stego_encode_error (fun s _ => s) c3Img bigMsg
      (by rw [bigMsg_full_length, show c3Img.width = 1431655776 from rfl,
        show c3Img.height = 1 from rfl]; norm_num)]
    rw [bigMsg_full_length, show c3Img.width = 1431655776 from rfl,
      show c3Img.height = 1 from rfl]

/-- When the header is in range and promises no more bits than remain,
password-less `decode` returns the decoded text of exactly that many payload
bits. -/
theorem stego_decode_ok
    (decryptFn : List Nat → List Nat → Except CryptoEngine.CryptoFailure (List Nat))
    (img : ImageDta) (B : List Bool)
    (hbits : lsbBits img.data = B)
    (h32 : 32 ≤ B.length)
    (hne : bitsToNat (B.take 32) ≠ 0)
    (hle : bitsToNat (B.take 32) ≤ B.length - 32) :
    StegoEngine.decode decryptFn img none =
      .ok (StegoEngine.binaryToString ((B.drop 32).take (bitsToNat (B.take 32)))) := by
  simp only [StegoEngine.decode, hbits]
  rw [if_neg (by omega), if_pos ⟨hne, by rw [List.length_drop]; omega⟩]

/-- A 2^31-pixel cover image, comfortably larger than `bigMsg`'s real frame. -/
def c1Img : ImageDta := ImageDta.mk (2 ^ 31) 1 (List.replicate (4 * 2 ^ 31) 0)

theorem c1Img_lsb : lsbBits c1Img.data = List.replicate 6442450944 false := by
  rw [show c1Img.data = List.replicate (4 * 2 ^ 31) 0 from rfl, lsbBits_replicate_zero,
    show (3 * 2 ^ 31 : Nat) = 6442450944 from by norm_num]

/-- Field reduction for explicitly constructed images. -/
theorem ImageDta_mk_data (w h : Nat) (d : List Nat) : (ImageDta.mk w h d).data = d := rfl

/-- The image produced by embedding `bigMsg`'s frame into `c1Img`. -/
def c1Out : ImageDta :=
  ImageDta.mk c1Img.width c1Img.height (embedPixels c1Img.data
    (padStart 32 (natToBin (stringToBinary bigMsg).length) ++ stringToBinary bigMsg))

/-- Claim C1 (counterexample): the claim's capacity hypothesis holds
(`32 + 16·len(bigMsg) = 4294967328 ≤ 3·2^31` bits) and `encode` succeeds — but
the frame it wrote starts with a 33-bit header.  `decode` reads only the first
32 header bits (value `2^31` instead of `2^32`), so the extracted text has
`2^27` characters and cannot be the `2^28`-character message: the round-trip
fails. -/
theorem c1_counterexample :
    32 + 16 * bigMsg.length ≤ c1Img.width * c1Img.height * 3 ∧
    StegoEngine.encode (fun s _ => s) c1Img bigMsg none = .ok c1Out ∧
    StegoEngine.decode (fun s _ => .ok s) c1Out none ≠ .ok bigMsg := by
  have hwidth : c1Img.width = 2 ^ 31 := rfl
  have hheight : c1Img.height = 1 := rfl
  refine ⟨by rw [bigMsg_length, hwidth, hheight]; norm_num,
    stego_encode_ok (fun s _ => s) c1Img bigMsg
      (by rw [bigMsg_full_length, hwidth, hheight]; norm_num), ?_⟩
  have hfit : (padStart 32 (natToBin (stringToBinary bigMsg).length) ++
      stringToBinary bigMsg).length ≤ (lsbBits c1Img.data).length := by
    rw [bigMsg_full_length, c1Img_lsb, List.length_replicate]
    norm_num
  have hdata : c1Out.data = embedPixels c1Img.data
      (padStart 32 (natToBin (stringToBinary bigMsg).length) ++ stringToBinary bigMsg) := by
    unfold c1Out
    rw [ImageDta_mk_data]
  have hembed2 : lsbBits c1Out.data =
      ((true :: List.replicate 32 false) ++ stringToBinary bigMsg) ++
        List.replicate 2147483615 false := by
    rw [hdata, lsbBits_embedPixels _ _ hfit, c1Img_lsb, bigMsg_full_length,
      List.drop_replicate,
      show (6442450944 - 4294967329 : Nat) = 2147483615 from by norm_num, bigMsg_header]
  have htakeB : ((((true :: List.replicate 32 false) ++ stringToBinary bigMsg) ++
      List.replicate 2147483615 false)).take 32 = true :: List.replicate 31 false := by
    rw [List.append_assoc, List.take_append_of_le_length (by decide)]
    decide
  have hdropB : ((((true :: List.replicate 32 false) ++ stringToBinary bigMsg) ++
      List.replicate 2147483615 false)).drop 32 =
      [false] ++ (stringToBinary bigMsg ++ List.replicate 2147483615 false) := by
    rw [List.append_assoc, List.drop_append_of_le_length (by decide),
      show List.drop 32 (true :: List.replicate 32 false) = [false] from by decide]
  have hBlen : ((((true :: List.replicate 32 false) ++ stringToBinary bigMsg) ++
      List.replicate 2147483615 false)).length = 6442450944 := by
    rw [List.length_append, List.length_append, List.length_cons, List.length_replicate,
      List.length_replicate, bigMsg_bits_length]
  have hNB : bitsToNat (((((true :: List.replicate 32 false) ++ stringToBinary bigMsg) ++
      List.replicate 2147483615 false)).take 32) = 2147483648 := by
    rw [htakeB]
    decide
  rw [stego_decode_ok (fun s _ => .ok s) c1Out
    (((true :: List.replicate 32 false) ++ stringToBinary bigMsg) ++
      List.replicate 2147483615 false)
    hembed2
    (by rw [hBlen]; norm_num)
    (by rw [hNB]; norm_num)
    (by rw [hNB, hBlen]; norm_num)]
  rw [hNB, hdropB]
  intro heq
  rw [Except.ok.injEq] at heq
  have hlen := congrArg List.length heq
  rw [stego_binaryToString_length, List.length_take, List.length_append,
    List.length_append, List.length_replicate, bigMsg_bits_length, bigMsg_length,
    show (2 ^ 28 : Nat) = 268435456 from by norm_num] at hlen
  simp only [List.length_cons, List.length_nil] at hlen
  omega
